import Mathlib

/-!
Shallow embedding of `src/inputrc/chars.rs` (character-name parsing and
display escaping for a terminal line editor).

Characters (Rust `char`, a Unicode scalar value) are modelled as natural
numbers; strings (Rust `&str`/`String`) as lists of such scalars, in
character (not byte) order.  Rust's `c as u8` narrowing is `% 256`.
-/

namespace Rustyline

/-- A character scalar value. -/
abbrev Ch := Nat

/-- Character value generated by the Escape key (`pub const ESCAPE`). -/
def ESCAPE : Ch := 0x1b

/-- Character value generated by the Backspace key on some systems
(`pub const RUBOUT`). -/
def RUBOUT : Ch := 0x7f

/-- Character value generated by the Backspace key; the `cfg(unix)` branch
of the source, where `DELETE = RUBOUT`. -/
def DELETE : Ch := RUBOUT

/-- `const CTRL_BIT: u8 = 0x40`. -/
def CTRL_BIT : Ch := 0x40

/-- `const CTRL_MASK: u8 = 0x1f`. -/
def CTRL_MASK : Ch := 0x1f

/-- `is_ctrl(c)`: `c != '\0' && c as u32 <= 0x1f`. -/
def is_ctrl (c : Ch) : Bool := decide (c ≠ 0) && decide (c ≤ 0x1f)

/-- `ctrl(c)`: `((c as u8) & CTRL_MASK) as char`. -/
def ctrl (c : Ch) : Ch := (c % 256) &&& CTRL_MASK

/-- `unctrl(c)`: `((c as u8) | CTRL_BIT) as char`. -/
def unctrl (c : Ch) : Ch := (c % 256) ||| CTRL_BIT

/-- Rust `char::to_ascii_lowercase`: ASCII uppercase letters map to their
lowercase forms; every other scalar is unchanged. -/
def to_ascii_lowercase (c : Ch) : Ch :=
  if 0x41 ≤ c ∧ c ≤ 0x5a then c + 0x20 else c

/-- `unctrl_lower(c)`: `unctrl(c).to_ascii_lowercase()`. -/
def unctrl_lower (c : Ch) : Ch := to_ascii_lowercase (unctrl c)

/-- `meta(ch)`: the two-character sequence Escape followed by `ch`. -/
def meta (ch : Ch) : List Ch := [ESCAPE, ch]

/-- Rust `str::to_lowercase`, applied characterwise.  On ASCII input (the
whole input vocabulary of this module) Unicode lowercasing coincides with
the ASCII uppercase-to-lowercase map modelled here; special Unicode
casings outside ASCII are left unchanged. -/
def to_lowercase (s : List Ch) : List Ch := s.map to_ascii_lowercase

/-- Rust `str::starts_with(p)`: `p` is a leading segment of `s`. -/
def starts_with : List Ch → List Ch → Bool
  | _, [] => true
  | [], _ :: _ => false
  | b :: ss, a :: ps => if a = b then starts_with ss ps else false

/-- Rust `str::contains(p)`: `p` occurs as a contiguous substring of `s`. -/
def contains_sub : List Ch → List Ch → Bool
  | [], p => starts_with [] p
  | s@(_ :: rest), p => starts_with s p || contains_sub rest p

/-- `contains_any(s, strs)`: `strs.iter().any(|a| s.contains(a))`. -/
def contains_any (s : List Ch) (strs : List (List Ch)) : Bool :=
  strs.any (fun a => contains_sub s a)

/-- Rust `str::rfind(c)`: index of the last occurrence of `c` in `s`. -/
def rfind : List Ch → Ch → Option Nat
  | [], _ => none
  | x :: xs, c =>
    match rfind xs c with
    | some i => some (i + 1)
    | none => if x = c then some 0 else none

/-- The base-name extraction step of `parse_char_name`: the suffix of the
lowercased name after its last `'-'`, or the whole name without one. -/
def base_token (name_lc : List Ch) : List Ch :=
  match rfind name_lc 0x2d with
  | some pos => name_lc.drop (pos + 1)
  | none => name_lc

/-- The string `"c-"`. -/
def s_c_dash : List Ch := [0x63, 0x2d]

/-- The string `"ctrl-"`. -/
def s_ctrl_dash : List Ch := [0x63, 0x74, 0x72, 0x6c, 0x2d]

/-- The string `"control-"`. -/
def s_control_dash : List Ch := [0x63, 0x6f, 0x6e, 0x74, 0x72, 0x6f, 0x6c, 0x2d]

/-- The string `"m-"`. -/
def s_m_dash : List Ch := [0x6d, 0x2d]

/-- The string `"meta-"`. -/
def s_meta_dash : List Ch := [0x6d, 0x65, 0x74, 0x61, 0x2d]

/-- The control-modifier patterns `["c-", "ctrl-", "control-"]`. -/
def ctrl_mod_strs : List (List Ch) := [s_c_dash, s_ctrl_dash, s_control_dash]

/-- The meta-modifier patterns `["m-", "meta-"]`. -/
def meta_mod_strs : List (List Ch) := [s_m_dash, s_meta_dash]

/-- The string `"del"`. -/
def s_del : List Ch := [0x64, 0x65, 0x6c]

/-- The string `"rubout"`. -/
def s_rubout : List Ch := [0x72, 0x75, 0x62, 0x6f, 0x75, 0x74]

/-- The string `"esc"`. -/
def s_esc : List Ch := [0x65, 0x73, 0x63]

/-- The string `"escape"`. -/
def s_escape : List Ch := [0x65, 0x73, 0x63, 0x61, 0x70, 0x65]

/-- The string `"lfd"`. -/
def s_lfd : List Ch := [0x6c, 0x66, 0x64]

/-- The string `"newline"`. -/
def s_newline : List Ch := [0x6e, 0x65, 0x77, 0x6c, 0x69, 0x6e, 0x65]

/-- The string `"ret"`. -/
def s_ret : List Ch := [0x72, 0x65, 0x74]

/-- The string `"return"`. -/
def s_return : List Ch := [0x72, 0x65, 0x74, 0x75, 0x72, 0x6e]

/-- The string `"spc"`. -/
def s_spc : List Ch := [0x73, 0x70, 0x63]

/-- The string `"space"`. -/
def s_space : List Ch := [0x73, 0x70, 0x61, 0x63, 0x65]

/-- The string `"tab"`. -/
def s_tab : List Ch := [0x74, 0x61, 0x62]

/-- The base-name resolution match of `parse_char_name`: the exact-match
table, then the first character of any other non-empty token, `none` for
the empty token. -/
def resolve_base (s : List Ch) : Option Ch :=
  if s = s_del ∨ s = s_rubout then some DELETE
  else if s = s_esc ∨ s = s_escape then some ESCAPE
  else if s = s_lfd ∨ s = s_newline then some 0x0a
  else if s = s_ret ∨ s = s_return then some 0x0d
  else if s = s_spc ∨ s = s_space then some 0x20
  else if s = s_tab then some 0x09
  else
    match s with
    | c :: _ => some c
    | [] => none

/-- `parse_char_name(name)`: lowercase, detect the control and meta
modifiers by substring containment, isolate the token after the last
`'-'`, resolve it, and combine with the detected modifiers. -/
def parse_char_name (name : List Ch) : Option (List Ch) :=
  let name_lc := to_lowercase name
  let is_ctrl_mod := contains_any name_lc ctrl_mod_strs
  let is_meta_mod := contains_any name_lc meta_mod_strs
  match resolve_base (base_token name_lc) with
  | none => none
  | some ch =>
    some (match is_ctrl_mod, is_meta_mod with
          | true, true => meta (ctrl ch)
          | true, false => [ctrl ch]
          | false, true => meta ch
          | false, false => [ch])

/-- The per-character match of the `escape_sequence` loop body: the first
matching rule decides the emitted segment. -/
def escape_char (ch : Ch) : List Ch :=
  if ch = ESCAPE then [0x5c, 0x65]
  else if ch = RUBOUT then [0x5c, 0x43, 0x2d, 0x3f]
  else if ch = 0x5c then [0x5c, 0x5c]
  else if ch = 0x27 then [0x5c, 0x27]
  else if ch = 0x22 then [0x5c, 0x22]
  else if is_ctrl ch then [0x5c, 0x43, 0x2d, unctrl_lower ch]
  else [ch]

/-- `escape_sequence(s)`: the loop accumulating `res` by appending the
segment for each character in order. -/
def escape_sequence (s : List Ch) : List Ch :=
  s.foldl (fun res ch => res ++ escape_char ch) []

/-- The name `"Control-u"`. -/
def n_Control_u : List Ch := [0x43, 0x6f, 0x6e, 0x74, 0x72, 0x6f, 0x6c, 0x2d, 0x75]

/-- The name `"Meta-tab"`. -/
def n_Meta_tab : List Ch := [0x4d, 0x65, 0x74, 0x61, 0x2d, 0x74, 0x61, 0x62]

/-- The name `"C-M-x"`. -/
def n_C_M_x : List Ch := [0x43, 0x2d, 0x4d, 0x2d, 0x78]

/-- The name `"Escape"`. -/
def n_Escape : List Ch := [0x45, 0x73, 0x63, 0x61, 0x70, 0x65]

/-- The name `"x-"`. -/
def n_x_dash : List Ch := [0x78, 0x2d]

/-- The name `"metal"`. -/
def n_metal : List Ch := [0x6d, 0x65, 0x74, 0x61, 0x6c]

/-- The name `"controller"`. -/
def n_controller : List Ch := [0x63, 0x6f, 0x6e, 0x74, 0x72, 0x6f, 0x6c, 0x6c, 0x65, 0x72]

/-- The name `"esc-x"`. -/
def n_esc_x : List Ch := [0x65, 0x73, 0x63, 0x2d, 0x78]

/-- The name `"xm-q"`. -/
def n_xm_q : List Ch := [0x78, 0x6d, 0x2d, 0x71]

/-- `parse_char_name` unfolded: resolution of the base token of the
lowercased name, then modifier combination. -/
theorem parse_char_name_eq (name : List Ch) :
    parse_char_name name =
      match resolve_base (base_token (to_lowercase name)) with
      | none => none
      | some ch =>
        some (match contains_any (to_lowercase name) ctrl_mod_strs,
                    contains_any (to_lowercase name) meta_mod_strs with
              | true, true => meta (ctrl ch)
              | true, false => [ctrl ch]
              | false, true => meta ch
              | false, false => [ch]) := rfl

/-- `starts_with s p` holds exactly when `p` is a leading segment of `s`. -/
theorem starts_with_iff (p : List Ch) : ∀ s : List Ch,
    starts_with s p = true ↔ ∃ r, s = p ++ r := by
  induction p with
  | nil =>
    intro s
    simp [starts_with]
  | cons a ps ih =>
    intro s
    cases s with
    | nil =>
      simp [starts_with]
    | cons b ss =>
      by_cases hab : a = b
      · subst hab
        simp [starts_with, ih]
      · constructor
        · intro h
          simp [starts_with, hab] at h
        · rintro ⟨r, hr⟩
          simp only [List.cons_append, List.cons.injEq] at hr
          exact absurd hr.1.symm hab

/-- `contains_sub s p` holds exactly when `p` occurs contiguously in `s`. -/
theorem contains_sub_iff (p : List Ch) : ∀ s : List Ch,
    contains_sub s p = true ↔ ∃ l r, s = l ++ p ++ r := by
  intro s
  induction s with
  | nil =>
    simp only [contains_sub, starts_with_iff]
    constructor
    · rintro ⟨r, hr⟩
      exact ⟨[], r, by simpa using hr⟩
    · rintro ⟨l, r, hr⟩
      rcases List.append_eq_nil.mp hr.symm with ⟨hl, hr0⟩
      rcases List.append_eq_nil.mp hl with ⟨hl0, hp⟩
      exact ⟨r, by simp [hp, hr0]⟩
  | cons x rest ih =>
    simp only [contains_sub, Bool.or_eq_true, starts_with_iff, ih]
    constructor
    · rintro (⟨r, hr⟩ | ⟨l, r, hr⟩)
      · exact ⟨[], r, by simpa using hr⟩
      · exact ⟨x :: l, r, by simp [hr]⟩
    · rintro ⟨l, r, hr⟩
      cases l with
      | nil =>
        exact Or.inl ⟨r, by simpa using hr⟩
      | cons y l2 =>
        simp only [List.cons_append, List.cons.injEq] at hr
        exact Or.inr ⟨l2, r, hr.2⟩

/-- The `escape_sequence` fold appends its segments after the accumulator. -/
theorem escape_foldl (s : List Ch) : ∀ init : List Ch,
    s.foldl (fun res ch => res ++ escape_char ch) init = init ++ escape_sequence s := by
  induction s with
  | nil =>
    intro init
    simp [escape_sequence]
  | cons ch rest ih =>
    intro init
    simp only [escape_sequence, List.foldl_cons, List.nil_append] at *
    rw [ih, ih (escape_char ch), List.append_assoc]

/-- `escape_sequence` emits the segment of the head character, then the
escaped tail. -/
theorem escape_sequence_cons (ch : Ch) (s : List Ch) :
    escape_sequence (ch :: s) = escape_char ch ++ escape_sequence s := by
  have h := escape_foldl (ch :: s) []
  simp only [List.foldl_cons, List.nil_append] at h
  rw [escape_sequence, List.foldl_cons, List.nil_append, escape_foldl s (escape_char ch)]

/-- `resolve_base` fails exactly on the empty token. -/
theorem resolve_base_eq_none_iff (s : List Ch) : resolve_base s = none ↔ s = [] := by
  cases s with
  | nil =>
    exact iff_of_true (by decide) rfl
  | cons c rest =>
    refine iff_of_false ?_ (List.cons_ne_nil c rest)
    intro h
    unfold resolve_base at h
    split at h
    · exact Option.noConfusion h
    · split at h
      · exact Option.noConfusion h
      · split at h
        · exact Option.noConfusion h
        · split at h
          · exact Option.noConfusion h
          · split at h
            · exact Option.noConfusion h
            · split at h
              · exact Option.noConfusion h
              · exact Option.noConfusion h

/-- C1: every successful `parse_char_name` result is the modifier
combination of the resolved base character: both modifiers give
`meta (ctrl ch)`, control only gives `[ctrl ch]`, meta only gives
`meta ch`, neither gives `[ch]`; concretely `"Control-u"` resolves to
`"\x15"`, `"Meta-tab"` to Escape-tab, and `"C-M-x"` to Escape followed by
`ctrl 'x'`. -/
theorem parse_char_name_combines_modifiers :
    (∀ name seq, parse_char_name name = some seq →
      ∃ ch, resolve_base (base_token (to_lowercase name)) = some ch ∧
        seq = (match contains_any (to_lowercase name) ctrl_mod_strs,
                     contains_any (to_lowercase name) meta_mod_strs with
               | true, true => meta (ctrl ch)
               | true, false => [ctrl ch]
               | false, true => meta ch
               | false, false => [ch])) ∧
    parse_char_name n_Control_u = some [0x15] ∧
    parse_char_name n_Meta_tab = some [ESCAPE, 0x09] ∧
    parse_char_name n_C_M_x = some (meta (ctrl 0x78)) := by
  refine ⟨?_, by decide, by decide, by decide⟩
  intro name seq h
  rw [parse_char_name_eq] at h
  cases hr : resolve_base (base_token (to_lowercase name)) with
  | none => rw [hr] at h; exact Option.noConfusion h
  | some ch =>
    rw [hr] at h
    exact ⟨ch, rfl, (Option.some.inj h).symm⟩

/-- C1 witness at the concrete name `"Control-u"`. -/
theorem parse_char_name_combines_modifiers_witness :
    ∃ ch, resolve_base (base_token (to_lowercase n_Control_u)) = some ch ∧
      ([0x15] : List Ch) =
        (match contains_any (to_lowercase n_Control_u) ctrl_mod_strs,
               contains_any (to_lowercase n_Control_u) meta_mod_strs with
         | true, true => meta (ctrl ch)
         | true, false => [ctrl ch]
         | false, true => meta ch
         | false, false => [ch]) :=
  parse_char_name_combines_modifiers.1 n_Control_u [0x15] (by decide)

/-- C2: `parse_char_name` fails exactly when the base token of the
lowercased name (the part after the last hyphen, or the whole name) is
empty; `""` and `"x-"` fail and nothing else does. -/
theorem parse_char_name_none_iff_empty_base :
    (∀ name, parse_char_name name = none ↔ base_token (to_lowercase name) = []) ∧
    parse_char_name [] = none ∧
    parse_char_name n_x_dash = none := by
  refine ⟨?_, by decide, by decide⟩
  intro name
  rw [parse_char_name_eq, ← resolve_base_eq_none_iff]
  cases hr : resolve_base (base_token (to_lowercase name)) with
  | none => simp [hr]
  | some ch => simp [hr]

/-- C3: the control-bit codec round-trips on uppercase ASCII letters, with
the concrete values from the source tests: ctrl of A, I, J, M and unctrl
of their control forms. -/
theorem unctrl_ctrl_roundtrip :
    (∀ c : Ch, 0x41 ≤ c → c ≤ 0x5a → unctrl (ctrl c) = c) ∧
    ctrl 0x41 = 0x01 ∧ ctrl 0x49 = 0x09 ∧ ctrl 0x4a = 0x0a ∧ ctrl 0x4d = 0x0d ∧
    unctrl 0x01 = 0x41 ∧ unctrl 0x09 = 0x49 ∧ unctrl 0x0a = 0x4a ∧
    unctrl 0x0d = 0x4d := by
  refine ⟨?_, by decide, by decide, by decide, by decide, by decide, by decide,
    by decide, by decide⟩
  intro c h1 h2
  interval_cases c <;> decide

/-- C3 witness at the letter `'A'` (0x41). -/
theorem unctrl_ctrl_roundtrip_witness : unctrl (ctrl 0x41) = 0x41 :=
  unctrl_ctrl_roundtrip.1 0x41 (by decide) (by decide)

/-- C4: `escape_sequence` emits per character, in order, the first
matching rule: Escape, Rubout, backslash, single quote, double quote, the
control-character escape, then literal copy; concretely Escape-Rubout
escapes to backslash-e-backslash-C-hyphen-question. -/
theorem escape_sequence_rules :
    (∀ ch s, escape_sequence (ch :: s) =
      (if ch = ESCAPE then [0x5c, 0x65]
       else if ch = RUBOUT then [0x5c, 0x43, 0x2d, 0x3f]
       else if ch = 0x5c then [0x5c, 0x5c]
       else if ch = 0x27 then [0x5c, 0x27]
       else if ch = 0x22 then [0x5c, 0x22]
       else if is_ctrl ch then [0x5c, 0x43, 0x2d, unctrl_lower ch]
       else [ch]) ++ escape_sequence s) ∧
    escape_sequence [] = [] ∧
    escape_sequence [ESCAPE, RUBOUT] = [0x5c, 0x65, 0x5c, 0x43, 0x2d, 0x3f] := by
  refine ⟨?_, rfl, by decide⟩
  intro ch s
  rw [escape_sequence_cons]
  rfl

/-- C5: modifier detection is plain substring containment over the
lowercased name, with patterns "c-"/"ctrl-"/"control-" for control and
"m-"/"meta-" for meta, not anchored at the start: `"xm-q"` is treated as
meta-qualified. -/
theorem modifier_detection_substring :
    (∀ name,
      (contains_any (to_lowercase name) ctrl_mod_strs = true ↔
        (∃ l r, to_lowercase name = l ++ s_c_dash ++ r) ∨
        (∃ l r, to_lowercase name = l ++ s_ctrl_dash ++ r) ∨
        (∃ l r, to_lowercase name = l ++ s_control_dash ++ r)) ∧
      (contains_any (to_lowercase name) meta_mod_strs = true ↔
        (∃ l r, to_lowercase name = l ++ s_m_dash ++ r) ∨
        (∃ l r, to_lowercase name = l ++ s_meta_dash ++ r))) ∧
    parse_char_name n_xm_q = some (meta 0x71) := by
  refine ⟨?_, by decide⟩
  intro name
  constructor
  · simp [contains_any, List.any_cons, List.any_nil, Bool.or_eq_true,
      contains_sub_iff, ctrl_mod_strs]
  · simp [contains_any, List.any_cons, List.any_nil, Bool.or_eq_true,
      contains_sub_iff, meta_mod_strs]

/-- C6 counterexample: `"metal"` and `"controller"` contain `"meta"` and
`"control"` but no hyphen, so no modifier pattern matches: neither name is
treated as modifier-qualified; both parse to their literal first
character. -/
theorem metal_controller_not_misclassified :
    contains_any (to_lowercase n_metal) meta_mod_strs = false ∧
    contains_any (to_lowercase n_metal) ctrl_mod_strs = false ∧
    contains_any (to_lowercase n_controller) ctrl_mod_strs = false ∧
    contains_any (to_lowercase n_controller) meta_mod_strs = false ∧
    parse_char_name n_metal = some [0x6d] ∧
    parse_char_name n_controller = some [0x63] :=
  ⟨by decide, by decide, by decide, by decide, by decide, by decide⟩

/-- C6 amended: every modifier pattern ends in a hyphen, so hyphen-free
base names such as `"metal"` and `"controller"` are parsed as plain
literal names; the substring hazard arises only when a pattern occurs with
its hyphen inside the name, e.g. `"esc-x"` contains `"c-"` and is treated
as control-qualified. -/
theorem substring_hazard_needs_hyphen :
    parse_char_name n_metal = some [0x6d] ∧
    parse_char_name n_controller = some [0x63] ∧
    contains_any (to_lowercase n_esc_x) ctrl_mod_strs = true ∧
    parse_char_name n_esc_x = some [ctrl 0x78] :=
  ⟨by decide, by decide, by decide, by decide⟩

/-- C7: every key sequence produced by `parse_char_name` has length 2 and
begins with Escape when the meta modifier is detected, and has length 1
otherwise. -/
theorem parse_char_name_length :
    ∀ name seq, parse_char_name name = some seq →
      (contains_any (to_lowercase name) meta_mod_strs = true →
        seq.length = 2 ∧ seq.head? = some ESCAPE) ∧
      (contains_any (to_lowercase name) meta_mod_strs = false →
        seq.length = 1) := by
  intro name seq h
  rw [parse_char_name_eq] at h
  cases hr : resolve_base (base_token (to_lowercase name)) with
  | none => rw [hr] at h; exact Option.noConfusion h
  | some ch =>
    rw [hr] at h
    have hseq := (Option.some.inj h).symm
    cases hc : contains_any (to_lowercase name) ctrl_mod_strs <;>
      cases hm : contains_any (to_lowercase name) meta_mod_strs <;>
        rw [hc, hm] at hseq <;> subst hseq <;> simp [meta]

/-- C7 witness at the concrete name `"Meta-tab"`. -/
theorem parse_char_name_length_witness :
    ([ESCAPE, 0x09] : List Ch).length = 2 ∧
    ([ESCAPE, 0x09] : List Ch).head? = some ESCAPE :=
  (parse_char_name_length n_Meta_tab [ESCAPE, 0x09] (by decide)).1 (by decide)

/-- C8: the base-token table: del/rubout, esc/escape, lfd/newline,
ret/return, spc/space and tab resolve to their characters, any other
non-empty token to its first character; `"Escape"` parses to `"\x1b"`. -/
theorem resolve_base_table :
    (∀ c rest, (c :: rest) ∉ [s_del, s_rubout, s_esc, s_escape, s_lfd,
        s_newline, s_ret, s_return, s_spc, s_space, s_tab] →
      resolve_base (c :: rest) = some c) ∧
    resolve_base s_del = some DELETE ∧ resolve_base s_rubout = some DELETE ∧
    resolve_base s_esc = some ESCAPE ∧ resolve_base s_escape = some ESCAPE ∧
    resolve_base s_lfd = some 0x0a ∧ resolve_base s_newline = some 0x0a ∧
    resolve_base s_ret = some 0x0d ∧ resolve_base s_return = some 0x0d ∧
    resolve_base s_spc = some 0x20 ∧ resolve_base s_space = some 0x20 ∧
    resolve_base s_tab = some 0x09 ∧
    parse_char_name n_Escape = some [ESCAPE] := by
  refine ⟨?_, by decide, by decide, by decide, by decide, by decide, by decide,
    by decide, by decide, by decide, by decide, by decide, by decide⟩
  intro c rest hmem
  simp only [List.mem_cons, List.not_mem_nil, or_false, not_or] at hmem
  obtain ⟨h1, h2, h3, h4, h5, h6, h7, h8, h9, h10, h11⟩ := hmem
  simp [resolve_base, h1, h2, h3, h4, h5, h6, h7, h8, h9, h10, h11]

/-- C8 witness: the token `"x"` resolves to its own first character. -/
theorem resolve_base_table_witness : resolve_base [0x78] = some 0x78 :=
  resolve_base_table.1 0x78 [] (by decide)

/-- C9: `escape_sequence` returns a string free of all the special
characters unchanged. -/
theorem escape_sequence_plain_id :
    ∀ s : List Ch,
      (∀ c ∈ s, c ≠ ESCAPE ∧ c ≠ RUBOUT ∧ c ≠ 0x5c ∧ c ≠ 0x27 ∧ c ≠ 0x22 ∧
        is_ctrl c = false) →
      escape_sequence s = s := by
  intro s
  induction s with
  | nil => intro _; rfl
  | cons ch rest ih =>
    intro h
    obtain ⟨h1, h2, h3, h4, h5, h6⟩ := h ch (List.mem_cons_self ch rest)
    rw [escape_sequence_cons, ih (fun c hc => h c (List.mem_cons_of_mem ch hc))]
    simp [escape_char, h1, h2, h3, h4, h5, h6]

/-- C9 witness at the plain two-character string `"ab"`. -/
theorem escape_sequence_plain_id_witness :
    escape_sequence [0x61, 0x62] = [0x61, 0x62] :=
  escape_sequence_plain_id [0x61, 0x62] (by decide)

/-- C10: the null character fails `is_ctrl`, so `escape_sequence` copies
it through unchanged instead of rendering a control escape, even though
its value lies in the control range. -/
theorem escape_sequence_null_passthrough :
    is_ctrl 0 = false ∧ escape_char 0 = [0] ∧
    (∀ s, escape_sequence (0 :: s) = 0 :: escape_sequence s) ∧
    escape_sequence [0] = [0] := by
  refine ⟨by decide, by decide, ?_, by decide⟩
  intro s
  rw [escape_sequence_cons]
  rfl

end Rustyline
